import Mathlib

/-!
Verification development for the `shield` character-roster service
(`src/main.py`, `src/models.py`).

The Python service is embedded shallowly:

* the SQLAlchemy table `characters` (models.py) becomes the structure
  `DBCharacter`; the database session becomes an explicit
  `List DBCharacter` value threaded through the operations, with
  `db.query(...).filter(DBCharacter.name == n).first()` embedded as
  `List.find?` on the list;
* each Discord command handler (`create_character`, `edit_character`,
  `delete_character`, `show_character`) becomes a pure function returning
  its result, the updated store, and the `ChangeEvent` it broadcasts
  (`none` when the handler performs no `broadcast_message` call);
* the HTTP listing endpoint `get_characters` becomes a pure projection
  of the store;
* Python truthiness tests on `Optional[str]` arguments (`if faceclaim:`)
  are embedded by `pyTruthy`;
* the regular-expression check of `is_valid_image_url` and the
  SQL `ilike` pattern match of `show_character` are embedded by
  executable character-list functions whose equivalence to the intended
  prefix/suffix readings is proved, not assumed.
-/

/-- models.py `GenderEnum`. -/
inductive GenderEnum
  | male | female | nonBinary | other
  deriving DecidableEq, Repr

/-- models.py `SexualityEnum`. -/
inductive SexualityEnum
  | heterosexual | homosexual | bisexual | pansexual | asexual | other
  deriving DecidableEq, Repr

/-- models.py `ProgramEnum`. -/
inductive ProgramEnum
  | operations | intelligence | technology | science
  deriving DecidableEq, Repr

/-- models.py `YearEnum`. -/
inductive YearEnum
  | first | second | third | fourth
  deriving DecidableEq, Repr

/-- models.py `DBCharacter`: one row of the `characters` table.
`name` is the primary key; the four demographic columns are nullable
and are never touched by any handler in main.py. -/
structure DBCharacter where
  name : String
  faceclaim : String
  image : String
  bio : String
  password : String
  gender : Option GenderEnum := none
  sexuality : Option SexualityEnum := none
  program : Option ProgramEnum := none
  year : Option YearEnum := none
  deriving DecidableEq, Repr

/-- The public projection served by `GET /api/characters` (main.py):
`{"name": ..., "faceclaim": ..., "image": ..., "bio": ...}`.
The `password` column is not serialized. -/
structure PublicCharacter where
  name : String
  faceclaim : String
  image : String
  bio : String
  deriving DecidableEq, Repr

/-- The JSON message handed to `broadcast_message`.  The create handler
sends `{'action': 'create', 'name', 'faceclaim', 'image', 'bio'}`; the
edit and delete handlers send only `{'action': ..., 'name': ...}`, so the
three payload fields are optional here. -/
structure ChangeEvent where
  action : String
  name : String
  faceclaim : Option String := none
  image : Option String := none
  bio : Option String := none
  deriving DecidableEq, Repr

/-- Outcome of the create handler, one constructor per user-visible reply. -/
inductive CreateResult
  | invalidImage | duplicateKey | success
  deriving DecidableEq, Repr

/-- Outcome of the edit handler. `denied` is the
"Invalid character name or password." reply. -/
inductive EditResult
  | denied | invalidImage | notFound | success
  deriving DecidableEq, Repr

/-- Outcome of the delete handler. -/
inductive DeleteResult
  | denied | notFound | success
  deriving DecidableEq, Repr

/-- Truthiness of a Python `Optional[str]`: `None` and `""` are falsy. -/
def pyTruthy : Option String → Bool
  | none => false
  | some s => !(s == "")

/-- `isPrefList p l` holds when the character list `p` is an initial
segment of `l` (exact character equality). -/
def isPrefList : List Char → List Char → Bool
  | [], _ => true
  | _ :: _, [] => false
  | a :: as, b :: bs => (a == b) && isPrefList as bs

/-- `isSuffList p l` holds when `p` is a final segment of `l`. -/
def isSuffList (p l : List Char) : Bool :=
  isPrefList p.reverse l.reverse

/-- ASCII-lowered character list of a string, embedding Python's
case-insensitive comparison on the ASCII inputs this service handles. -/
def lowerList (s : List Char) : List Char :=
  s.map Char.toLower

/-- Strips the single trailing newline that Python's `$` anchor may sit
in front of (re.match semantics: `$` matches at end of string or just
before one final newline). -/
def stripNL (s : List Char) : List Char :=
  match s.getLast? with
  | some c => if c = '\n' then s.dropLast else s
  | none => s

/-- main.py `is_valid_image_url`, the truth function of
`re.match(r'^https://.*\.(jpg|jpeg|png)$', url, re.IGNORECASE)` plus the
emptiness and length guards.  The anchored regex is embedded by its
characterisation: after allowing `$` to sit before one trailing newline,
the matched core may contain no newline (`.` excludes newline), must
start case-insensitively with `https://` and must end case-insensitively
with `.jpg`, `.jpeg` or `.png` (the prefix contains no dot, so prefix
and suffix cannot overlap and this is exactly the regex's language). -/
def is_valid_image_url (url : String) : Bool :=
  if url = "" then false
  else
    let core := stripNL url.data
    let low := lowerList core
    (!(core.contains '\n')
      && isPrefList "https://".data low
      && (isSuffList ".jpg".data low || isSuffList ".jpeg".data low
            || isSuffList ".png".data low))
      && url.length ≤ 2048

/-- `db.query(DBCharacter).filter(DBCharacter.name == name).first()`:
first row whose primary key equals `name` (case-sensitive). -/
def findCharacter (store : List DBCharacter) (name : String) : Option DBCharacter :=
  store.find? (fun c => c.name == name)

/-- main.py `verify_character`.  `admin` is the `ADMIN_PASSWORD`
environment value (`none` when the variable is unset, in which case the
Python comparison `password == ADMIN_PASSWORD` is false for every
string).  A missing row makes the whole `and`-chain falsy. -/
def verify_character (admin : Option String) (store : List DBCharacter)
    (name password : String) : Bool :=
  match findCharacter store name with
  | none => false
  | some character => character.password == password || some password == admin

/-- Suffix list of a character list, in order of decreasing length,
always including the empty suffix. -/
def suffixes : List Char → List (List Char)
  | [] => [[]]
  | c :: cs => (c :: cs) :: suffixes cs

/-- SQL `LIKE`/`ILIKE` pattern matching as used by
`DBCharacter.name.ilike(f"{name}%")` in `show_character`: `%` matches
any run of characters, `_` any single character, and plain characters
match case-insensitively (ASCII). -/
def likeMatch : List Char → List Char → Bool
  | [], s => s.isEmpty
  | a :: ps, s =>
    if a = '%' then (suffixes s).any (fun t => likeMatch ps t)
    else
      match s with
      | [] => false
      | c :: cs =>
        if a = '_' then likeMatch ps cs
        else (a.toLower == c.toLower) && likeMatch ps cs

/-- The embed built by `show_character` for a unique match: title is the
upper-cased name, description links the bio when it starts with `http`,
the image and the faceclaim footer come straight from the row. -/
structure Embed where
  title : String
  description : String
  image : String
  footer : String
  deriving DecidableEq, Repr

/-- Constructs the reply embed of `show_character`. -/
def characterEmbed (c : DBCharacter) : Embed :=
  { title := String.mk (c.name.data.map Char.toUpper)
    description :=
      if isPrefList "http".data c.bio.data then
        "[Character Sheet](" ++ c.bio ++ ")"
      else "N/A"
    image := c.image
    footer := c.faceclaim }

/-- Outcome of the show handler. -/
inductive ShowResult
  | notFound
  | ambiguous (candidates : List String)
  | shown (e : Embed)
  deriving DecidableEq, Repr

/-- main.py `show_character`: fetch all rows whose name matches the
`ilike` pattern `name + "%"`; none → not-found reply; more than one
(after truncating the suggestion list to 5) → ambiguity reply with the
candidate names; exactly one → the embed of that row.  The handler calls
`broadcast_message` nowhere, hence the event component is `none`. -/
def show_character (store : List DBCharacter) (name : String) :
    ShowResult × Option ChangeEvent :=
  let characters := store.filter (fun c => likeMatch (name.data ++ ['%']) c.name.data)
  match characters with
  | [] => (.notFound, none)
  | c :: rest =>
    let suggestions := ((c :: rest).map (fun x => x.name)).take 5
    if suggestions.length > 1 then (.ambiguous suggestions, none)
    else (.shown (characterEmbed c), none)

/-- main.py `create_character`: invalid image → early reply; otherwise
`db.add` + `db.commit`, which raises `IntegrityError` exactly when the
primary key `name` already has a row (store left unchanged); on success
the new row (demographic columns null) is appended and the create event
is broadcast once. -/
def create_character (store : List DBCharacter)
    (name faceclaim image bio password : String) :
    CreateResult × List DBCharacter × Option ChangeEvent :=
  if !is_valid_image_url image then (.invalidImage, store, none)
  else
    match findCharacter store name with
    | some _ => (.duplicateKey, store, none)
    | none =>
      (.success,
       store ++ [{ name := name, faceclaim := faceclaim, image := image,
                   bio := bio, password := password }],
       some { action := "create", name := name, faceclaim := some faceclaim,
              image := some image, bio := some bio })

/-- Applies the field assignments of `edit_character`: each of the three
optional arguments overwrites its column only when truthy (so `None` and
`""` both leave the column alone); `name`, `password` and the
demographic columns are never assigned. -/
def applyEdits (faceclaim image bio : Option String) (c : DBCharacter) :
    DBCharacter :=
  { c with
    faceclaim := if pyTruthy faceclaim then faceclaim.getD c.faceclaim else c.faceclaim
    image := if pyTruthy image then image.getD c.image else c.image
    bio := if pyTruthy bio then bio.getD c.bio else c.bio }

/-- Rewrites the first row whose primary key is `name` with `f`, leaving
every other row untouched (the ORM mutates the single row returned by
`.first()`). -/
def updateFirst (store : List DBCharacter) (name : String)
    (f : DBCharacter → DBCharacter) : List DBCharacter :=
  match store with
  | [] => []
  | c :: rest => if c.name == name then f c :: rest else c :: updateFirst rest name f

/-- Removes the first row whose primary key is `name` (`db.delete` on
the row returned by `.first()`). -/
def removeFirst (store : List DBCharacter) (name : String) : List DBCharacter :=
  match store with
  | [] => []
  | c :: rest => if c.name == name then rest else c :: removeFirst rest name

/-- main.py `edit_character`: authorization first (generic denial),
then URL validation of a truthy `image` argument, then re-query of the
row (`None` is unreachable sequentially, kept for fidelity), then the
truthy-guarded assignments, commit, and one edit event. -/
def edit_character (admin : Option String) (store : List DBCharacter)
    (name password : String) (faceclaim image bio : Option String) :
    EditResult × List DBCharacter × Option ChangeEvent :=
  if !verify_character admin store name password then (.denied, store, none)
  else if pyTruthy image && !is_valid_image_url (image.getD "") then
    (.invalidImage, store, none)
  else
    match findCharacter store name with
    | none => (.notFound, store, none)
    | some _ =>
      (.success, updateFirst store name (applyEdits faceclaim image bio),
       some { action := "edit", name := name })

/-- main.py `delete_character`: authorization, re-query, row removal,
commit, one delete event. -/
def delete_character (admin : Option String) (store : List DBCharacter)
    (name password : String) :
    DeleteResult × List DBCharacter × Option ChangeEvent :=
  if !verify_character admin store name password then (.denied, store, none)
  else
    match findCharacter store name with
    | none => (.notFound, store, none)
    | some _ =>
      (.success, removeFirst store name, some { action := "delete", name := name })

/-- main.py `get_characters` (`GET /api/characters`): serializes every
row's four public columns; no broadcast call, hence no event. -/
def get_characters (store : List DBCharacter) :
    List PublicCharacter × Option ChangeEvent :=
  (store.map (fun c => { name := c.name, faceclaim := c.faceclaim,
                         image := c.image, bio := c.bio }), none)

/-- main.py `broadcast_message` awaits `asyncio.gather` over one
`ws.send` per registered connection without `return_exceptions`, so the
await completes normally exactly when every send succeeds (trivially so
for the empty connection set, via the early return).  Each connection is
abstracted to the success bit of its send. -/
def broadcast_message (sendOk : List Bool) : Bool :=
  sendOk.all (fun b => b)

/-- The messages the create handler can send to the interaction. -/
inductive Msg
  | invalidImageMsg
  | duplicateMsg (name : String)
  | successMsg (name : String)
  | genericErrorMsg
  deriving DecidableEq, Repr

/-- The whole create command including its outer `try/except`: on
success the confirmation is sent and then `broadcast_message` is
awaited; an exception escaping the broadcast (one failed send, since
`asyncio.gather` re-raises) lands in the generic `except` branch, which
reports "An error occurred while processing your request." to the
caller even though the row is already committed. -/
def create_command (sendOk : List Bool) (store : List DBCharacter)
    (name faceclaim image bio password : String) :
    List Msg × List DBCharacter :=
  match create_character store name faceclaim image bio password with
  | (.invalidImage, s, _) => ([.invalidImageMsg], s)
  | (.duplicateKey, s, _) => ([.duplicateMsg name], s)
  | (.success, s, _) =>
    if broadcast_message sendOk then ([.successMsg name], s)
    else ([.successMsg name, .genericErrorMsg], s)

/-- Row-by-row agreement on every column except `password`: two stores
related by this differ at most in stored secrets. -/
def samePublicFields (s1 s2 : List DBCharacter) : Prop :=
  List.Forall₂ (fun c c' =>
    c.name = c'.name ∧ c.faceclaim = c'.faceclaim ∧ c.image = c'.image ∧
    c.bio = c'.bio ∧ c.gender = c'.gender ∧ c.sexuality = c'.sexuality ∧
    c.program = c'.program ∧ c.year = c'.year) s1 s2

/-- Sample row for the concrete witnesses. -/
def annRow : DBCharacter :=
  { name := "Ann", faceclaim := "Ann Actor", image := "https://x.com/a.png",
    bio := "https://sheet.example/ann", password := "pw1" }

/-- Second sample row whose name extends the first. -/
def annaRow : DBCharacter :=
  { name := "Anna", faceclaim := "Anna Actor", image := "https://x.com/b.png",
    bio := "plain bio", password := "pw2" }

/-- The first sample row with a different stored secret. -/
def annRowAlt : DBCharacter :=
  { annRow with password := "pwX" }

/-! ### Helper lemmas -/

theorem forall₂_self {α : Type} {P : α → α → Prop} (l : List α)
    (h : ∀ a ∈ l, P a a) : List.Forall₂ P l l := by
  induction l with
  | nil => exact List.Forall₂.nil
  | cons a t ih =>
    exact List.Forall₂.cons (h a (by simp)) (ih (fun b hb => h b (by simp [hb])))

theorem updateFirst_forall₂ {P : DBCharacter → DBCharacter → Prop}
    (name : String) (g : DBCharacter → DBCharacter)
    (hg : ∀ c, c.name = name → P c (g c)) (hid : ∀ c, P c c)
    (store : List DBCharacter) :
    List.Forall₂ P store (updateFirst store name g) := by
  induction store with
  | nil => exact List.Forall₂.nil
  | cons c rest ih =>
    unfold updateFirst
    cases hb : (c.name == name) with
    | true =>
      simp only [hb, if_true]
      exact List.Forall₂.cons (hg c (beq_iff_eq.mp hb))
        (forall₂_self rest (fun a _ => hid a))
    | false =>
      simp only [hb, Bool.false_eq_true, if_false]
      exact List.Forall₂.cons (hid c) ih

theorem updateFirst_congr_id (name : String) (g : DBCharacter → DBCharacter)
    (hg : ∀ c, g c = c) (store : List DBCharacter) :
    updateFirst store name g = store := by
  induction store with
  | nil => rfl
  | cons c rest ih =>
    unfold updateFirst
    cases hb : (c.name == name) <;> simp [hb, hg c, ih]

theorem verify_find (admin : Option String) (store : List DBCharacter)
    (name password : String)
    (h : verify_character admin store name password = true) :
    ∃ c, findCharacter store name = some c := by
  unfold verify_character at h
  cases hf : findCharacter store name with
  | none => rw [hf] at h; exact Bool.noConfusion h
  | some c => exact ⟨c, rfl⟩

theorem findCharacter_eq_none (store : List DBCharacter) (name : String)
    (h : ∀ c ∈ store, c.name ≠ name) : findCharacter store name = none := by
  unfold findCharacter
  exact List.find?_eq_none.mpr (fun c hc => by simp [h c hc])

theorem findCharacter_name (store : List DBCharacter) (name : String)
    (c : DBCharacter) (h : findCharacter store name = some c) :
    c.name = name := by
  unfold findCharacter at h
  have hp := List.find?_some h
  simpa using hp

theorem findCharacter_mem (store : List DBCharacter) (name : String)
    (c : DBCharacter) (h : findCharacter store name = some c) : c ∈ store := by
  unfold findCharacter at h
  exact List.mem_of_find?_eq_some h

theorem edit_success_store (admin : Option String) (store : List DBCharacter)
    (name password : String) (fc img bio : Option String)
    (store' : List DBCharacter) (ev : Option ChangeEvent)
    (h : edit_character admin store name password fc img bio =
      (EditResult.success, store', ev)) :
    store' = updateFirst store name (applyEdits fc img bio) := by
  unfold edit_character at h
  split at h
  · exact absurd h (by simp)
  · split at h
    · exact absurd h (by simp)
    · split at h
      · exact absurd h (by simp)
      · simp only [Prod.mk.injEq] at h
        exact h.2.1.symm

theorem isPrefList_iff (p : List Char) :
    ∀ l, isPrefList p l = true ↔ ∃ t, l = p ++ t := by
  induction p with
  | nil =>
    intro l
    simp only [isPrefList, List.nil_append, true_iff]
    exact ⟨l, rfl⟩
  | cons a as ih =>
    intro l
    cases l with
    | nil => simp [isPrefList]
    | cons b bs =>
      simp only [isPrefList, Bool.and_eq_true, beq_iff_eq, ih bs,
        List.cons_append, List.cons.injEq]
      constructor
      · rintro ⟨rfl, t, rfl⟩; exact ⟨t, rfl, rfl⟩
      · rintro ⟨t, rfl, rfl⟩; exact ⟨rfl, t, rfl⟩

theorem isSuffList_iff (p l : List Char) :
    isSuffList p l = true ↔ ∃ t, l = t ++ p := by
  unfold isSuffList
  rw [isPrefList_iff]
  constructor
  · rintro ⟨t, ht⟩
    refine ⟨t.reverse, ?_⟩
    have h2 := congrArg List.reverse ht
    simpa using h2
  · rintro ⟨t, rfl⟩
    exact ⟨t.reverse, by simp⟩

theorem contains_false_iff (l : List Char) (c : Char) :
    l.contains c = false ↔ c ∉ l := by
  simp

theorem stripNL_eq_or (l : List Char) :
    l = stripNL l ∨ l = stripNL l ++ ['\n'] := by
  unfold stripNL
  cases hl : l.getLast? with
  | none => exact Or.inl rfl
  | some c =>
    by_cases hc : c = '\n'
    · subst hc
      obtain ⟨ys, rfl⟩ := List.getLast?_eq_some_iff.mp hl
      simp [List.dropLast_concat]
    · simp [hc]

theorem stripNL_spec (l core : List Char)
    (h : l = core ∨ l = core ++ ['\n']) (hnl : '\n' ∉ core) :
    stripNL l = core := by
  rcases h with rfl | rfl
  · unfold stripNL
    cases hg : l.getLast? with
    | none => rfl
    | some c =>
      obtain ⟨ys, rfl⟩ := List.getLast?_eq_some_iff.mp hg
      have hcmem : c ∈ ys ++ [c] := by simp
      have hc : ¬(c = '\n') := fun he => hnl (he ▸ hcmem)
      simp [hc]
  · unfold stripNL
    rw [List.getLast?_concat]
    simp [List.dropLast_concat]

theorem suffixes_any_empty (s : List Char) :
    (suffixes s).any (fun t => likeMatch [] t) = true := by
  induction s with
  | nil => rfl
  | cons c cs ih => simp only [suffixes, List.any_cons, ih, Bool.or_true]

theorem likeMatch_ci :
    ∀ p : List Char, (∀ a ∈ p, a ≠ '%' ∧ a ≠ '_') →
      ∀ s : List Char,
        likeMatch (p ++ ['%']) s = isPrefList (lowerList p) (lowerList s) := by
  intro p
  induction p with
  | nil =>
    intro _ s
    have h1 : likeMatch ([] ++ ['%']) s = (suffixes s).any (fun t => likeMatch [] t) := by
      simp [likeMatch]
    rw [h1, suffixes_any_empty s]
    rfl
  | cons a ps ih =>
    intro hp s
    obtain ⟨ha1, ha2⟩ := hp a (by simp)
    have hps : ∀ b ∈ ps, b ≠ '%' ∧ b ≠ '_' := fun b hb => hp b (by simp [hb])
    cases s with
    | nil => simp [likeMatch, isPrefList, lowerList, ha1]
    | cons c cs =>
      simp only [List.cons_append, likeMatch, if_neg ha1, if_neg ha2,
        lowerList, List.map_cons, isPrefList, List.append_eq]
      rw [ih hps cs]
      rfl

theorem forall₂_filter {R : DBCharacter → DBCharacter → Prop}
    {p q : DBCharacter → Bool} (hpq : ∀ a b, R a b → p a = q b)
    {l1 l2 : List DBCharacter} (h : List.Forall₂ R l1 l2) :
    List.Forall₂ R (l1.filter p) (l2.filter q) := by
  induction h with
  | nil => exact List.Forall₂.nil
  | cons hab htail ih =>
    rename_i a b t1 t2
    cases hpa : p a with
    | true =>
      rw [List.filter_cons_of_pos hpa,
        List.filter_cons_of_pos (by rw [← hpq a b hab]; exact hpa)]
      exact List.Forall₂.cons hab ih
    | false =>
      rw [List.filter_cons_of_neg (by simp [hpa]),
        List.filter_cons_of_neg (by simp [← hpq a b hab, hpa])]
      exact ih

theorem forall₂_names_eq {R : DBCharacter → DBCharacter → Prop}
    (hR : ∀ a b, R a b → a.name = b.name) {l1 l2 : List DBCharacter}
    (h : List.Forall₂ R l1 l2) :
    l1.map (fun c => c.name) = l2.map (fun c => c.name) := by
  induction h with
  | nil => rfl
  | cons hab _ ih => simp [hR _ _ hab, ih]

theorem map_public_eq {s1 s2 : List DBCharacter} (h : samePublicFields s1 s2) :
    s1.map (fun c => (⟨c.name, c.faceclaim, c.image, c.bio⟩ : PublicCharacter)) =
    s2.map (fun c => (⟨c.name, c.faceclaim, c.image, c.bio⟩ : PublicCharacter)) := by
  induction h with
  | nil => rfl
  | cons hab _ ih =>
    obtain ⟨h1, h2, h3, h4, _, _, _, _⟩ := hab
    simp [h1, h2, h3, h4, ih]

theorem characterEmbed_eq {c1 c2 : DBCharacter} (h1 : c1.name = c2.name)
    (h2 : c1.faceclaim = c2.faceclaim) (h3 : c1.image = c2.image)
    (h4 : c1.bio = c2.bio) : characterEmbed c1 = characterEmbed c2 := by
  simp [characterEmbed, h1, h2, h3, h4]

theorem show_same (s1 s2 : List DBCharacter) (h : samePublicFields s1 s2)
    (n : String) : show_character s1 n = show_character s2 n := by
  have hf := forall₂_filter
    (p := fun c => likeMatch (n.data ++ ['%']) c.name.data)
    (q := fun c => likeMatch (n.data ++ ['%']) c.name.data)
    (fun a b hab => by simp only [hab.1]) h
  simp only [show_character]
  generalize hg1 : s1.filter (fun c => likeMatch (n.data ++ ['%']) c.name.data) = ms1 at hf
  generalize hg2 : s2.filter (fun c => likeMatch (n.data ++ ['%']) c.name.data) = ms2 at hf
  clear hg1 hg2
  cases hf with
  | nil => rfl
  | cons hab htail =>
    rename_i c1 c2 r1 r2
    have hnames : (c1 :: r1).map (fun x => x.name) = (c2 :: r2).map (fun x => x.name) :=
      forall₂_names_eq (fun a b hr => hr.1) (List.Forall₂.cons hab htail)
    simp only []
    rw [hnames]
    obtain ⟨e1, e2, e3, e4, _, _, _, _⟩ := hab
    rw [characterEmbed_eq e1 e2 e3 e4]

/-! ### Claim theorems -/

/-- C1: for every name and supplied secret, `verify_character` returns
Allowed (true) iff a record named `name` exists in the store and the
supplied secret equals that record's stored secret exactly or equals the
configured admin override value; in every other case (including a
missing record) it returns Denied (false); and an edit authorized via
the admin override succeeds regardless of the record's stored secret
(stated for the store's reachable state, where primary-key names are
unique). -/
theorem verify_character_c1 (admin : Option String) (store : List DBCharacter)
    (name password : String) (huniq : (store.map (fun c => c.name)).Nodup) :
    (verify_character admin store name password = true ↔
      ∃ c, c ∈ store ∧ c.name = name ∧
        (c.password = password ∨ some password = admin)) ∧
    (∀ c, c ∈ store → c.name = name → some password = admin →
      (edit_character admin store name password none none none).1 =
        EditResult.success) := by
  constructor
  · constructor
    · intro h
      obtain ⟨c, hf⟩ := verify_find admin store name password h
      unfold verify_character at h
      rw [hf] at h
      refine ⟨c, findCharacter_mem store name c hf,
        findCharacter_name store name c hf, ?_⟩
      rcases Bool.or_eq_true _ _ |>.mp h with h1 | h2
      · exact Or.inl (beq_iff_eq.mp h1)
      · exact Or.inr (beq_iff_eq.mp h2)
    · rintro ⟨c, hc, hname, hcond⟩
      unfold verify_character
      cases hf : findCharacter store name with
      | none =>
        unfold findCharacter at hf
        have := List.find?_eq_none.mp hf c hc
        simp [hname] at this
      | some c0 =>
        have hc0 : c0 ∈ store := findCharacter_mem store name c0 hf
        have hc0n : c0.name = name := findCharacter_name store name c0 hf
        have : c0 = c :=
          List.inj_on_of_nodup_map huniq hc0 hc (by rw [hc0n, hname])
        subst this
        rcases hcond with h1 | h2
        · simp [h1]
        · simp [h2]
  · intro c hc hname hadmin
    have hver : verify_character admin store name password = true := by
      unfold verify_character
      cases hf : findCharacter store name with
      | none =>
        unfold findCharacter at hf
        have := List.find?_eq_none.mp hf c hc
        simp [hname] at this
      | some c0 => simp [hadmin]
    unfold edit_character
    rw [hver]
    obtain ⟨c0, hf⟩ := verify_find admin store name password hver
    simp [pyTruthy, hf]

/-- C1 witness: with admin override "adm" configured and a store holding
only `annRow` (stored secret "pw1"), supplying "adm" is Allowed and the
override edit succeeds. -/
theorem verify_character_c1_witness :
    verify_character (some "adm") [annRow] "Ann" "adm" = true ∧
    (edit_character (some "adm") [annRow] "Ann" "adm" none none none).1 =
      EditResult.success := by
  constructor
  · exact ((verify_character_c1 (some "adm") [annRow] "Ann" "adm"
      (by decide)).1).mpr ⟨annRow, by decide, rfl, Or.inr rfl⟩
  · exact (verify_character_c1 (some "adm") [annRow] "Ann" "adm"
      (by decide)).2 annRow (by decide) rfl rfl

/-- C3 counterexample: deleting a name that has no record returns the
generic authorization denial ("Invalid character name or password."),
not the NotFound reply the claim states. -/
theorem delete_nonexistent_counterexample_c3 :
    delete_character none [] "Ann" "pw" = (DeleteResult.denied, [], none) ∧
    DeleteResult.denied ≠ DeleteResult.notFound := by
  constructor
  · rfl
  · intro h
    exact DeleteResult.noConfusion h

/-- C3 amended: for every name with no record in the store, delete
returns Denied (the authorization check fails first, exactly as the
Access Guard section of the spec prescribes for missing records) and
leaves the store unchanged, emitting no event; the NotFound reply is
unreachable for a nonexistent name. -/
theorem delete_nonexistent_c3 (admin : Option String)
    (store : List DBCharacter) (name password : String)
    (h : ∀ c ∈ store, c.name ≠ name) :
    delete_character admin store name password =
      (DeleteResult.denied, store, none) := by
  have hf : findCharacter store name = none := findCharacter_eq_none store name h
  unfold delete_character verify_character
  rw [hf]
  rfl

/-- C3 witness: deleting "Zed" from a store holding only "Ann". -/
theorem delete_nonexistent_c3_witness :
    (∀ c ∈ [annRow], c.name ≠ "Zed") ∧
    delete_character none [annRow] "Zed" "pw" =
      (DeleteResult.denied, [annRow], none) :=
  ⟨by decide, delete_nonexistent_c3 none [annRow] "Zed" "pw" (by decide)⟩

/-- C5: evaluation of the code at the failing configuration.  One
registered viewer whose send fails makes `asyncio.gather` re-raise out
of `broadcast_message` into the command's generic exception handler, so
a create whose row is already durably committed (the returned store
holds the new row) still surfaces the generic operation-failure reply
to the caller, contradicting the claim that a publish failure is never
surfaced as a failure of the operation. -/
theorem broadcast_failure_surfaced_c5 :
    create_command [false] [] "Ann" "fc" "https://x.com/a.png" "bio" "pw" =
      ([Msg.successMsg "Ann", Msg.genericErrorMsg],
       [{ name := "Ann", faceclaim := "fc", image := "https://x.com/a.png",
          bio := "bio", password := "pw" }]) := by
  rfl

/-- C7: every successful edit updates only the supplied fields: row by
row, the primary key, the stored secret and the demographic columns are
unchanged, rows with a different name are untouched, and any of the
three editable columns whose argument was not supplied (None) keeps its
previous value. -/
theorem edit_frame_c7 (admin : Option String) (store : List DBCharacter)
    (name password : String) (fc img bio : Option String)
    (store' : List DBCharacter) (ev : Option ChangeEvent)
    (h : edit_character admin store name password fc img bio =
      (EditResult.success, store', ev)) :
    List.Forall₂ (fun c c' =>
      c'.name = c.name ∧ c'.password = c.password ∧
      c'.gender = c.gender ∧ c'.sexuality = c.sexuality ∧
      c'.program = c.program ∧ c'.year = c.year ∧
      (c.name ≠ name → c' = c) ∧
      (fc = none → c'.faceclaim = c.faceclaim) ∧
      (img = none → c'.image = c.image) ∧
      (bio = none → c'.bio = c.bio)) store store' := by
  rw [edit_success_store admin store name password fc img bio store' ev h]
  apply updateFirst_forall₂
  · intro c hc
    refine ⟨rfl, rfl, rfl, rfl, rfl, rfl, fun hn => absurd hc hn, ?_, ?_, ?_⟩ <;>
      (rintro rfl; simp [applyEdits, pyTruthy])
  · intro c
    exact ⟨rfl, rfl, rfl, rfl, rfl, rfl, fun _ => rfl, fun _ => rfl,
      fun _ => rfl, fun _ => rfl⟩

/-- C7 witness: an authorized edit of only the faceclaim leaves name,
secret and the unsupplied columns of `annRow` unchanged. -/
theorem edit_frame_c7_witness :
    edit_character none [annRow] "Ann" "pw1" (some "New Face") none none =
      (EditResult.success,
       [{ annRow with faceclaim := "New Face" }],
       some { action := "edit", name := "Ann" }) ∧
    List.Forall₂ (fun c c' =>
      c'.name = c.name ∧ c'.password = c.password ∧
      c'.gender = c.gender ∧ c'.sexuality = c.sexuality ∧
      c'.program = c.program ∧ c'.year = c.year ∧
      (c.name ≠ "Ann" → c' = c) ∧
      ((some "New Face" : Option String) = none → c'.faceclaim = c.faceclaim) ∧
      ((none : Option String) = none → c'.image = c.image) ∧
      ((none : Option String) = none → c'.bio = c.bio))
      [annRow] [{ annRow with faceclaim := "New Face" }] :=
  ⟨by decide,
   edit_frame_c7 none [annRow] "Ann" "pw1" (some "New Face") none none
     [{ annRow with faceclaim := "New Face" }]
     (some { action := "edit", name := "Ann" }) (by decide)⟩

/-- C8: for every create request whose image passes the URL policy,
create fails with DuplicateKey iff a record with the same name already
exists, leaving the store unchanged and emitting nothing; otherwise the
new record (demographic columns null) is committed and the create event
emitted. -/
theorem create_duplicate_c8 (store : List DBCharacter)
    (name fc img bio password : String)
    (himg : is_valid_image_url img = true) :
    ((∃ c, c ∈ store ∧ c.name = name) →
      create_character store name fc img bio password =
        (CreateResult.duplicateKey, store, none)) ∧
    ((∀ c ∈ store, c.name ≠ name) →
      create_character store name fc img bio password =
        (CreateResult.success,
         store ++ [{ name := name, faceclaim := fc, image := img,
                     bio := bio, password := password }],
         some { action := "create", name := name, faceclaim := some fc,
                image := some img, bio := some bio })) := by
  constructor
  · rintro ⟨c, hc, hname⟩
    have hf : ∃ c0, findCharacter store name = some c0 := by
      cases hff : findCharacter store name with
      | none =>
        unfold findCharacter at hff
        have := List.find?_eq_none.mp hff c hc
        simp [hname] at this
      | some c0 => exact ⟨c0, rfl⟩
    obtain ⟨c0, hf⟩ := hf
    simp [create_character, himg, hf]
  · intro hnone
    have hf : findCharacter store name = none := findCharacter_eq_none store name hnone
    simp [create_character, himg, hf]

/-- C8 witness: creating "Ann" twice in a row; the first commits, the
second fails with DuplicateKey and leaves the one-row store unchanged. -/
theorem create_duplicate_c8_witness :
    is_valid_image_url "https://x.com/a.png" = true ∧
    create_character [] "Ann" "fc" "https://x.com/a.png" "bio" "pw" =
      (CreateResult.success,
       [{ name := "Ann", faceclaim := "fc", image := "https://x.com/a.png",
          bio := "bio", password := "pw" }],
       some { action := "create", name := "Ann", faceclaim := some "fc",
              image := some "https://x.com/a.png", bio := some "bio" }) ∧
    create_character [annRow] "Ann" "fc" "https://x.com/a.png" "bio" "pw" =
      (CreateResult.duplicateKey, [annRow], none) :=
  ⟨by decide,
   (create_duplicate_c8 [] "Ann" "fc" "https://x.com/a.png" "bio" "pw"
     (by decide)).2 (by decide),
   (create_duplicate_c8 [annRow] "Ann" "fc" "https://x.com/a.png" "bio" "pw"
     (by decide)).1 ⟨annRow, by decide, rfl⟩⟩

/-- C9: each mutation handler broadcasts exactly one event, carrying
the operation kind and the affected name, precisely when it succeeds
(the event component equals `some` of that event iff the result is
success, and `none` on every failure), and the read-only show handler
and listing endpoint broadcast nothing. -/
theorem change_event_c9 (admin : Option String) (store : List DBCharacter)
    (name fc img bio password : String) (ofc oimg obio : Option String) :
    ((create_character store name fc img bio password).2.2 =
      if (create_character store name fc img bio password).1 = CreateResult.success
      then some { action := "create", name := name, faceclaim := some fc,
                  image := some img, bio := some bio }
      else none) ∧
    ((edit_character admin store name password ofc oimg obio).2.2 =
      if (edit_character admin store name password ofc oimg obio).1 = EditResult.success
      then some { action := "edit", name := name } else none) ∧
    ((delete_character admin store name password).2.2 =
      if (delete_character admin store name password).1 = DeleteResult.success
      then some { action := "delete", name := name } else none) ∧
    (show_character store name).2 = none ∧
    (get_characters store).2 = none := by
  refine ⟨?_, ?_, ?_, ?_, rfl⟩
  · unfold create_character
    split
    · simp
    · split <;> simp
  · unfold edit_character
    split
    · simp
    · split
      · simp
      · split <;> simp
  · unfold delete_character
    split
    · simp
    · split <;> simp
  · unfold show_character
    dsimp only
    split
    · rfl
    · split <;> rfl

/-- C10: in an authorized edit, a field supplied as the empty string is
falsy in Python and is treated exactly like a field not supplied: the
all-empty edit succeeds and changes nothing (while still emitting the
edit event), and on every successful edit an empty-string argument
leaves its column unchanged, so no column of a stored record is ever
set to the empty string through edit. -/
theorem edit_empty_c10 (admin : Option String) (store : List DBCharacter)
    (name password : String)
    (hauth : verify_character admin store name password = true) :
    edit_character admin store name password (some "") (some "") (some "") =
      (EditResult.success, store, some { action := "edit", name := name }) ∧
    (∀ (fc img bio : Option String) (store' : List DBCharacter)
        (ev : Option ChangeEvent),
      edit_character admin store name password fc img bio =
        (EditResult.success, store', ev) →
      List.Forall₂ (fun c c' =>
        (fc = some "" → c'.faceclaim = c.faceclaim) ∧
        (img = some "" → c'.image = c.image) ∧
        (bio = some "" → c'.bio = c.bio) ∧
        (c.faceclaim ≠ "" → c'.faceclaim ≠ "") ∧
        (c.image ≠ "" → c'.image ≠ "") ∧
        (c.bio ≠ "" → c'.bio ≠ "")) store store') := by
  constructor
  · obtain ⟨c0, hf⟩ := verify_find admin store name password hauth
    have hupd : updateFirst store name
        (applyEdits (some "") (some "") (some "")) = store :=
      updateFirst_congr_id name _ (fun c => by simp [applyEdits, pyTruthy]) store
    unfold edit_character
    rw [hauth]
    simp [pyTruthy, hf, hupd]
  · intro fc img bio store' ev h
    rw [edit_success_store admin store name password fc img bio store' ev h]
    apply updateFirst_forall₂
    · intro c _
      refine ⟨?_, ?_, ?_, ?_, ?_, ?_⟩
      · rintro rfl; simp [applyEdits, pyTruthy]
      · rintro rfl; simp [applyEdits, pyTruthy]
      · rintro rfl; simp [applyEdits, pyTruthy]
      · intro hne
        simp only [applyEdits]
        cases hfc : pyTruthy fc with
        | false => simpa [hfc] using hne
        | true =>
          cases fc with
          | none => simp [pyTruthy] at hfc
          | some s =>
            have hs : ¬(s = "") := by simpa [pyTruthy] using hfc
            simp [hfc, hs]
      · intro hne
        simp only [applyEdits]
        cases himg : pyTruthy img with
        | false => simpa [himg] using hne
        | true =>
          cases img with
          | none => simp [pyTruthy] at himg
          | some s =>
            have hs : ¬(s = "") := by simpa [pyTruthy] using himg
            simp [himg, hs]
      · intro hne
        simp only [applyEdits]
        cases hbio : pyTruthy bio with
        | false => simpa [hbio] using hne
        | true =>
          cases bio with
          | none => simp [pyTruthy] at hbio
          | some s =>
            have hs : ¬(s = "") := by simpa [pyTruthy] using hbio
            simp [hbio, hs]
    · intro c
      exact ⟨fun _ => rfl, fun _ => rfl, fun _ => rfl, id, id, id⟩

/-- C10 witness: the all-empty authorized edit of `annRow` succeeds,
changes nothing and emits the edit event. -/
theorem edit_empty_c10_witness :
    verify_character none [annRow] "Ann" "pw1" = true ∧
    edit_character none [annRow] "Ann" "pw1" (some "") (some "") (some "") =
      (EditResult.success, [annRow], some { action := "edit", name := "Ann" }) :=
  ⟨by decide, (edit_empty_c10 none [annRow] "Ann" "pw1" (by decide)).1⟩

/-- C6: secrets never reach a read path.  Two stores that differ only in
stored secrets produce identical listing-endpoint output and identical
show output for every queried name; and the event any mutation handler
broadcasts is built from the request alone (its only possible values
are `none` and a fixed event of the request arguments), so no stored
secret ever appears in an outbound-serialized event either. -/
theorem secret_noninterference_c6 :
    (∀ s1 s2, samePublicFields s1 s2 →
      get_characters s1 = get_characters s2 ∧
      ∀ n, show_character s1 n = show_character s2 n) ∧
    (∀ store name fc img bio password,
      (create_character store name fc img bio password).2.2 = none ∨
      (create_character store name fc img bio password).2.2 =
        some { action := "create", name := name, faceclaim := some fc,
               image := some img, bio := some bio }) ∧
    (∀ admin store name password ofc oimg obio,
      (edit_character admin store name password ofc oimg obio).2.2 = none ∨
      (edit_character admin store name password ofc oimg obio).2.2 =
        some { action := "edit", name := name }) ∧
    (∀ admin store name password,
      (delete_character admin store name password).2.2 = none ∨
      (delete_character admin store name password).2.2 =
        some { action := "delete", name := name }) := by
  refine ⟨?_, ?_, ?_, ?_⟩
  · intro s1 s2 h
    refine ⟨?_, show_same s1 s2 h⟩
    unfold get_characters
    rw [map_public_eq h]
  · intro store name fc img bio password
    unfold create_character
    split
    · exact Or.inl rfl
    · split
      · exact Or.inl rfl
      · exact Or.inr rfl
  · intro admin store name password ofc oimg obio
    unfold edit_character
    split
    · exact Or.inl rfl
    · split
      · exact Or.inl rfl
      · split
        · exact Or.inl rfl
        · exact Or.inr rfl
  · intro admin store name password
    unfold delete_character
    split
    · exact Or.inl rfl
    · split
      · exact Or.inl rfl
      · exact Or.inr rfl

/-- C6 witness: `annRow` and the same row with a different stored
secret are listing-indistinguishable and show-indistinguishable. -/
theorem secret_noninterference_c6_witness :
    samePublicFields [annRow] [annRowAlt] ∧
    get_characters [annRow] = get_characters [annRowAlt] ∧
    show_character [annRow] "ann" = show_character [annRowAlt] "ann" := by
  have hs : samePublicFields [annRow] [annRowAlt] :=
    List.Forall₂.cons ⟨rfl, rfl, rfl, rfl, rfl, rfl, rfl, rfl⟩ List.Forall₂.nil
  have h := (secret_noninterference_c6.1 [annRow] [annRowAlt] hs)
  exact ⟨hs, h.1, h.2 "ann"⟩

/-- C4 counterexample: with rows "Ann" and "Anna" stored, showing "Ann"
returns Ambiguous even though a record named "Ann" exists by exact
match, so an exact match does not win over a wider prefix match. -/
theorem show_exact_match_counterexample_c4 :
    annRow ∈ [annRow, annaRow] ∧ annRow.name = "Ann" ∧
    (show_character [annRow, annaRow] "Ann").1 =
      ShowResult.ambiguous ["Ann", "Anna"] ∧
    (show_character [annRow, annaRow] "Ann").1 ≠
      ShowResult.shown (characterEmbed annRow) := by
  refine ⟨by decide, rfl, by decide, by decide⟩

/-- C4 amended: for a queried name free of the SQL wildcard characters
`%` and `_`, show is driven solely by the number of stored rows whose
names have the queried name as a case-insensitive (ASCII) prefix: zero
matches give NotFound (and nothing else), exactly one match returns
that record's embed (whether the match is exact or a proper prefix
extension), and two or more matches give Ambiguous with the candidate
names truncated to at most 5 — even when one of them is an exact
match. -/
theorem show_character_c4 (store : List DBCharacter) (name : String)
    (h : ∀ a ∈ name.data, a ≠ '%' ∧ a ≠ '_') :
    (store.filter (fun c => isPrefList (lowerList name.data) (lowerList c.name.data)) = [] →
      (show_character store name).1 = ShowResult.notFound) ∧
    (∀ c, store.filter (fun c => isPrefList (lowerList name.data) (lowerList c.name.data)) = [c] →
      (show_character store name).1 = ShowResult.shown (characterEmbed c)) ∧
    (2 ≤ (store.filter (fun c => isPrefList (lowerList name.data) (lowerList c.name.data))).length →
      (show_character store name).1 =
        ShowResult.ambiguous (((store.filter (fun c =>
          isPrefList (lowerList name.data) (lowerList c.name.data))).map
            (fun c => c.name)).take 5) ∧
      (((store.filter (fun c => isPrefList (lowerList name.data)
          (lowerList c.name.data))).map (fun c => c.name)).take 5).length ≤ 5) := by
  have hfe : store.filter (fun c => likeMatch (name.data ++ ['%']) c.name.data) =
      store.filter (fun c => isPrefList (lowerList name.data) (lowerList c.name.data)) :=
    List.filter_congr (fun c _ => likeMatch_ci name.data h c.name.data)
  refine ⟨?_, ?_, ?_⟩
  · intro hms
    simp only [show_character]
    rw [hfe, hms]
  · intro c hms
    simp only [show_character]
    rw [hfe, hms]
    rfl
  · intro h2
    obtain ⟨c, rest, hms⟩ : ∃ c rest,
        store.filter (fun c => isPrefList (lowerList name.data) (lowerList c.name.data)) =
          c :: rest := by
      cases hq : store.filter (fun c =>
          isPrefList (lowerList name.data) (lowerList c.name.data)) with
      | nil => rw [hq] at h2; simp at h2
      | cons c rest => exact ⟨c, rest, rfl⟩
    have hlen2 : 2 ≤ (c :: rest).length := hms ▸ h2
    have hgt : (((c :: rest).map (fun x => x.name)).take 5).length > 1 := by
      rw [List.length_take, List.length_map]
      have h5 : 2 ≤ min 5 (c :: rest).length :=
        Nat.le_min.mpr ⟨by norm_num, hlen2⟩
      exact lt_of_lt_of_le (by norm_num) h5
    constructor
    · simp only [show_character]
      rw [hfe, hms]
      simp only [List.length_take, List.length_map] at hgt ⊢
      rw [if_pos hgt]
    · rw [hms, List.length_take, List.length_map]
      exact Nat.min_le_left _ _

/-- C4 witness: a store holding only "Ann", queried with the
lower-cased unique name "ann", returns that record. -/
theorem show_character_c4_witness :
    (∀ a ∈ "ann".data, a ≠ '%' ∧ a ≠ '_') ∧
    (show_character [annRow] "ann").1 = ShowResult.shown (characterEmbed annRow) :=
  ⟨by decide, (show_character_c4 [annRow] "ann" (by decide)).2.1 annRow (by decide)⟩

/-- C2 counterexample: `re.IGNORECASE` covers the whole pattern, scheme
included, so the validator accepts "HTTPS://X.COM/A.PNG", which does not
begin with the literal `https://`; and Python's `$` anchor also matches
just before one trailing newline, so it accepts "https://x.com/a.png\n",
which ends with a newline and not with any of the three extensions.
Both acceptances refute the claim's iff at explicit inputs. -/
theorem image_url_counterexample_c2 :
    is_valid_image_url "HTTPS://X.COM/A.PNG" = true ∧
    isPrefList "https://".data "HTTPS://X.COM/A.PNG".data = false ∧
    is_valid_image_url "https://x.com/a.png\n" = true ∧
    isSuffList ".jpg".data "https://x.com/a.png\n".data = false ∧
    isSuffList ".jpeg".data "https://x.com/a.png\n".data = false ∧
    isSuffList ".png".data "https://x.com/a.png\n".data = false := by
  decide

/-- C2 amended: the validator accepts `url` iff `url` is at most 2048
characters long and, after allowing one trailing newline (which the
anchored Python regex tolerates), the remaining core contains no
newline, begins with `https://` compared case-insensitively (ASCII),
and ends with `.jpg`, `.jpeg` or `.png` compared case-insensitively;
over-length URLs and the claim's concrete examples behave as the claim
states (https accepted, wrong scheme rejected, wrong extension
rejected, empty string rejected). -/
theorem image_url_amended_c2 (url : String) :
    (is_valid_image_url url = true ↔
      (url.length ≤ 2048 ∧
       ∃ core : List Char,
         (url.data = core ∨ url.data = core ++ ['\n']) ∧
         '\n' ∉ core ∧
         (∃ t, lowerList core = "https://".data ++ t) ∧
         (∃ t, lowerList core = t ++ ".jpg".data ∨
               lowerList core = t ++ ".jpeg".data ∨
               lowerList core = t ++ ".png".data))) ∧
    (2048 < url.length → is_valid_image_url url = false) ∧
    is_valid_image_url "https://x.com/a.png" = true ∧
    is_valid_image_url "http://x.com/a.png" = false ∧
    is_valid_image_url "https://x.com/a.gif" = false ∧
    is_valid_image_url "" = false := by
  have hmain : is_valid_image_url url = true ↔
      (url.length ≤ 2048 ∧
       ∃ core : List Char,
         (url.data = core ∨ url.data = core ++ ['\n']) ∧
         '\n' ∉ core ∧
         (∃ t, lowerList core = "https://".data ++ t) ∧
         (∃ t, lowerList core = t ++ ".jpg".data ∨
               lowerList core = t ++ ".jpeg".data ∨
               lowerList core = t ++ ".png".data)) := by
    by_cases hurl : url = ""
    · subst hurl
      rw [show is_valid_image_url "" = false from rfl]
      simp only [Bool.false_eq_true, false_iff]
      rintro ⟨-, core, hcore, -, ⟨t, ht⟩, -⟩
      have hcn : core = [] := by
        rcases hcore with hc | hc
        · exact hc.symm
        · have h0 : ([] : List Char) = core ++ ['\n'] := hc
          exact absurd h0.symm (by simp)
      subst hcn
      simp [lowerList] at ht
    · unfold is_valid_image_url
      rw [if_neg hurl]
      simp only [Bool.and_eq_true, Bool.or_eq_true, Bool.not_eq_true',
        decide_eq_true_eq, isPrefList_iff, isSuffList_iff, contains_false_iff]
      constructor
      · rintro ⟨⟨⟨hnl, hpre⟩, hsuf⟩, hlen⟩
        refine ⟨hlen, stripNL url.data, stripNL_eq_or url.data, hnl, hpre, ?_⟩
        rcases hsuf with (⟨t, ht⟩ | ⟨t, ht⟩) | ⟨t, ht⟩
        · exact ⟨t, Or.inl ht⟩
        · exact ⟨t, Or.inr (Or.inl ht)⟩
        · exact ⟨t, Or.inr (Or.inr ht)⟩
      · rintro ⟨hlen, core, hcore, hnl, hpre, ⟨t, hsuf⟩⟩
        have hstrip : stripNL url.data = core := stripNL_spec url.data core hcore hnl
        rw [hstrip]
        refine ⟨⟨⟨hnl, hpre⟩, ?_⟩, hlen⟩
        rcases hsuf with ht | ht | ht
        · exact Or.inl (Or.inl ⟨t, ht⟩)
        · exact Or.inl (Or.inr ⟨t, ht⟩)
        · exact Or.inr ⟨t, ht⟩
  refine ⟨hmain, ?_, by decide, by decide, by decide, by decide⟩
  intro hlen
  cases hv : is_valid_image_url url with
  | false => rfl
  | true =>
    have h1 := (hmain.mp hv).1
    omega

/-- C2 witness: the amended characterisation applied at the concrete
accepted URL of the claim. -/
theorem image_url_amended_c2_witness :
    is_valid_image_url "https://x.com/a.png" = true :=
  (image_url_amended_c2 "https://x.com/a.png").2.2.1
